import Mathlib

/-!
Shallow embedding of the SYN port scanner in src/nasl/nasl_builtin_synscan.c.

Machine integers are modeled as Nat with explicit reduction modulo 2^32 or
2^64 where the C code relies on fixed-width unsigned behavior.  The
byte-order conversions htonl/ntohl are modeled as 32-bit truncation (a
big-endian host, on which both are the identity); every arithmetic use in
the source pairs an htonl with an ntohl.  The clock reading that the C code
obtains by calling maketime() inside a function is made an explicit `now`
argument of the embedded function.
-/

namespace SynScan

/-- NUM_RETRIES, nasl_builtin_synscan.c line 49. -/
def NUM_RETRIES : Nat := 2

/-- Encoder maketime() (lines 91-102):
ret = ((tv_sec & 0x0F) << 28) | ((tv_usec & 0xFFFFFFF0) >> 4).
The two operands occupy disjoint bit ranges (bits 28-31 and bits 0-27), so
the bitwise or is addition; (usec & 0xFFFFFFF0) >> 4 keeps bits 4-31 of
usec, i.e. (usec / 16) % 2^28. -/
def maketime (sec usec : Nat) : Nat :=
  sec % 16 * 2 ^ 28 + usec / 16 % 2 ^ 28

/-- Fuel-indexed version of the usec-normalization while-loop of timeval()
(lines 118-122).  Each iteration subtracts 1000000 from u, so u itself
bounds the number of iterations and fuel u makes the fueled loop equal to
the unbounded C loop. -/
def normloopF : Nat → Nat → Nat → Nat × Nat
  | 0, s, u => (s, u)
  | fuel + 1, s, u =>
      if 1000000 ≤ u then normloopF fuel (s + 1) (u - 1000000) else (s, u)

/-- While-loop of timeval(): while (usec >= 1000000) do usec -= 1000000; sec++. -/
def normloop (s u : Nat) : Nat × Nat := normloopF u s u

/-- Decoder timeval() (lines 105-129): after the ntohl truncation,
h = (val & 0xF0000000) >> 28 is the top four bits, l = (val & 0x0FFFFFFF) << 4
the low 28 bits shifted left by four; usec is normalized below 1000000 and
the seconds are clamped at 2. -/
def timeval (val : Nat) : Nat × Nat :=
  if 2 < (normloop (val % 2 ^ 32 / 2 ^ 28) (val % 2 ^ 32 % 2 ^ 28 * 16)).1 then (2, 0)
  else normloop (val % 2 ^ 32 / 2 ^ 28) (val % 2 ^ 32 % 2 ^ 28 * 16)

/-- compute_rtt() (lines 132-151) with the maketime() clock reading passed as
`now`: returns 0 when the echoed time is not earlier than now, else the
difference saturated at 1 << 28. -/
def compute_rtt (now thenv : Nat) : Nat :=
  if now % 2 ^ 32 < thenv % 2 ^ 32 then 0
  else if 2 ^ 28 ≤ now % 2 ^ 32 - thenv % 2 ^ 32 then 2 ^ 28
  else now % 2 ^ 32 - thenv % 2 ^ 32

/-- Wrapping subtraction of unsigned long (64-bit) values: a - b mod 2^64. -/
def wsub64 (a b : Nat) : Nat := (a + 2 ^ 64 - b) % 2 ^ 64

/-- packetdead() (lines 154-168): (now - then) >= 2 << 28 computed on
unsigned long after both operands were truncated to 32 bits by ntohl.  The
rtt argument is accepted and ignored, exactly as in the source. -/
def packetdead (thenv rtt now : Nat) : Bool :=
  decide (2 ^ 29 ≤ wsub64 (now % 2 ^ 32) (thenv % 2 ^ 32))

/-- Initial RTT installed by plugin_run_synscan (line 944): htonl(1 << 28). -/
def initial_rtt : Nat := 2 ^ 28

/-- RTT update performed in the SYN|ACK branch of sendpacket (lines 720-723):
*rtt = compute_rtt(rack); if (ntohl(*rtt) >= (1 << 28)) *rtt = 1 << 28. -/
def sendpacket_rtt_update (now rack : Nat) : Nat :=
  if 2 ^ 28 ≤ compute_rtt now rack then 2 ^ 28 else compute_rtt now rack

/-- Per-iteration capture deadline computed by sendpacket (lines 674-690)
from the current RTT value: rtt_tv = timeval(*rtt); tv_sec *= 1000;
tv_sec /= 8; tv_usec += (tv_sec % 1000) * 1000; tv_sec /= 1000; clamp to
(1, 0) when tv_sec >= 1. -/
def sendpacket_deadline (rtt : Nat) : Nat × Nat :=
  if 1 ≤ (timeval rtt).1 * 1000 / 8 / 1000 then (1, 0)
  else ((timeval rtt).1 * 1000 / 8 / 1000,
        (timeval rtt).2 + (timeval rtt).1 * 1000 / 8 % 1000 * 1000)

/-- One node of the in-flight list (struct list, lines 264-270); the prev and
next pointers are the list structure itself. -/
structure Entry where
  dport : Nat
  when : Nat
  retries : Nat
deriving DecidableEq, Repr

/-- get_packet() (lines 277-288): first entry with the given dport. -/
def get_packet : List Entry → Nat → Option Entry
  | [], _ => none
  | e :: t, p => if e.dport = p then some e else get_packet t p

/-- In-place update of the first entry whose dport matches; this is what the
found-case of add_packet (lines 300-308) does by mutating the node returned
by get_packet: retries++ and when = ack. -/
def upd_first : List Entry → Nat → Nat → List Entry
  | [], _, _ => []
  | e :: t, p, w =>
      if e.dport = p then ⟨e.dport, w, e.retries + 1⟩ :: t
      else e :: upd_first t p w

/-- add_packet() (lines 295-321): on a duplicate dport increment retries and
overwrite when; otherwise prepend a fresh entry with retries = 0. -/
def add_packet (l : List Entry) (p w : Nat) : List Entry :=
  match get_packet l p with
  | some _ => upd_first l p w
  | none => ⟨p, w, 0⟩ :: l

/-- rm_packet() (lines 324-347): unlink the first entry with the given dport;
absence leaves the list unchanged. -/
def rm_packet : List Entry → Nat → List Entry
  | [], _ => []
  | e :: t, p => if e.dport = p then t else e :: rm_packet t p

/-- Body of rm_dead_packets() (lines 349-382): traverse from the head; a dead
entry with retries < NUM_RETRIES overwrites *retry with its dport and stays;
a dead entry with retries >= NUM_RETRIES is unlinked; live entries stay. -/
def rm_dead_go (rtt now : Nat) : List Entry → Nat → List Entry × Nat
  | [], r => ([], r)
  | e :: rest, r =>
      if packetdead e.when rtt now then
        if e.retries < NUM_RETRIES then
          ((e :: (rm_dead_go rtt now rest e.dport).1), (rm_dead_go rtt now rest e.dport).2)
        else rm_dead_go rtt now rest r
      else ((e :: (rm_dead_go rtt now rest r).1), (rm_dead_go rtt now rest r).2)

/-- rm_dead_packets() with *retry initialized to 0 (line 356). -/
def rm_dead_packets (l : List Entry) (rtt now : Nat) : List Entry × Nat :=
  rm_dead_go rtt now l 0

/-- Predicate from the claim: an entry that is dead and whose retry count is
at or above the ceiling, i.e. one that rm_dead_packets unlinks. -/
def deadAtCeiling (rtt now : Nat) (e : Entry) : Bool :=
  packetdead e.when rtt now && decide (NUM_RETRIES ≤ e.retries)

/-- Predicate from the claim: an entry that is dead and still below the retry
ceiling, i.e. one whose dport rm_dead_packets reports as retry candidate. -/
def retryCandidate (rtt now : Nat) (e : Entry) : Bool :=
  packetdead e.when rtt now && decide (e.retries < NUM_RETRIES)

/-- Fields of a TCP header that the receive path reads: th_sport, th_ack and
th_flags (lines 412-459). -/
structure TcpView where
  sport : Nat
  thAck : Nat
  flags : Nat
deriving DecidableEq, Repr

/-- A captured IPv4 frame as seen by extracttcp: the header-length field of
its IP header, the captured length, and the TCP header that starts at
ihl * 4 when it fits. -/
structure Frame where
  ihl : Nat
  caplen : Nat
  tcp : TcpView
deriving DecidableEq, Repr

/-- extracttcp() (lines 389-401): NULL when ip_hl * 4 + sizeof(struct tcphdr)
= ihl * 4 + 20 exceeds the captured length. -/
def extracttcp (f : Frame) : Option TcpView :=
  if f.caplen < f.ihl * 4 + 20 then none else some f.tcp

/-- extractsport() (lines 430-443): 0 on a malformed frame. -/
def extractsport (f : Frame) : Nat :=
  match extracttcp f with
  | none => 0
  | some t => t.sport

/-- issynack() (lines 445-459): flags byte equal to exactly TH_SYN|TH_ACK =
0x12 = 18; false on a malformed frame. -/
def issynack (f : Frame) : Bool :=
  match extracttcp f with
  | none => false
  | some t => t.flags == 18

/-- Transmit half of sendpacket (lines 692-702): when dport is nonzero the
probe is registered in the table and sent; a sendto failure closes the
socket and the bpf and returns NULL, modeled as none. -/
def sendpacket_send (t : List Entry) (p w : Nat) (ok : Bool) : Option (List Entry) :=
  if p = 0 then some t
  else if ok then some (add_packet t p w) else none

/-- Transmission loop of scan (lines 852-878) specialized to a run in which
no reply frame ever arrives, so the sniffing drain loop of sendpacket
removes nothing; oracle k is the success of the k-th sendto and k doubles as
the send timestamp.  The NULL that sendpacket returns on failure is stored
back into the packets variable (the empty table) and the loop goes on with
the next port: the source has no abort path here.  The first component of
the result counts sendto attempts. -/
def scan_loop : List Nat → (Nat → Bool) → Nat → List Entry → Nat × List Entry
  | [], _, k, t => (k, t)
  | p :: rest, oracle, k, t =>
      if p = 0 then scan_loop rest oracle k t
      else
        match sendpacket_send t p k (oracle k) with
        | none => scan_loop rest oracle (k + 1) []
        | some t1 => scan_loop rest oracle (k + 1) t1

/-- Return path of scan (lines 837-918): -1 is returned only when opening the
raw socket failed (line 842); the bpf returned by openbpf (line 846) is
never tested; otherwise the loop runs and 0 is returned (line 918). -/
def scan_run (soc bpf : Int) (ports : List Nat) (oracle : Nat → Bool) : Int × Nat :=
  if soc < 0 then (-1, 0)
  else (0, (scan_loop ports oracle 0 []).1)

/-- Sample acceptance of the measurement loop of find_rtt (lines 626-636),
returning the updated (max, max_max). -/
def rttSample (val maxv maxmax : Nat) : Nat × Nat :=
  if val ≠ 0 ∧ maxmax < val then
    if maxv ≠ 0 then
      if val < maxv * 2 then (maxmax, val) else (maxv, maxmax)
    else (maxmax, val)
  else (maxv, maxmax)

/-- Outcome of the measurement loop of find_rtt. -/
structure FindRttResult where
  aborted : Bool
  rtt : Nat
  maxv : Nat
deriving DecidableEq, Repr

/-- Measurement loop of find_rtt (lines 606-657) over a list of
per-iteration outcomes (none = no reply within one second, some v = a reply
whose compute_rtt sample is v).  j counts successful rounds (the C loop does
j-- on a non-reply, cancelling the j++ of the for header) and err counts
non-replies cumulatively; err > 10 aborts with the saturation RTT, and
completion applies the final max == 0 fixup of lines 655-656.  Returns none
when the outcome list is exhausted before the loop finishes. -/
def find_rtt_go : List (Option Nat) → Nat → Nat → Nat → Nat → Option FindRttResult
  | [], j, _, maxv, _ =>
      if 10 ≤ j then some ⟨false, if maxv = 0 then 2 ^ 28 else maxv, maxv⟩
      else none
  | none :: rest, j, err, maxv, maxmax =>
      if 10 ≤ j then some ⟨false, if maxv = 0 then 2 ^ 28 else maxv, maxv⟩
      else if 10 < err + 1 then some ⟨true, 2 ^ 28, maxv⟩
      else find_rtt_go rest j (err + 1) maxv maxmax
  | some val :: rest, j, err, maxv, maxmax =>
      if 10 ≤ j then some ⟨false, if maxv = 0 then 2 ^ 28 else maxv, maxv⟩
      else find_rtt_go rest (j + 1) err (rttSample val maxv maxmax).1
        (rttSample val maxv maxmax).2

/-- find_rtt's measurement loop started with j = 0, err = 0, max = max_max =
0 (lines 606-608). -/
def find_rtt_run (outs : List (Option Nat)) : Option FindRttResult :=
  find_rtt_go outs 0 0 0 0

/-- Abort predicate of the amended claim: the run aborts exactly when the
cumulative count of non-replies passes ten before the tenth successful
round. -/
def abortsB : List (Option Nat) → Nat → Nat → Bool
  | [], _, _ => false
  | none :: rest, j, err =>
      if 10 ≤ j then false
      else if 10 < err + 1 then true
      else abortsB rest j (err + 1)
  | some _ :: rest, j, err =>
      if 10 ≤ j then false else abortsB rest (j + 1) err

/-- In-flight tables reachable in a run of the scan engine.  fresh is a
first transmission to a port not yet in the table (the main loop sends each
port of the sorted list once, and sendpacket registers it only when dport is
nonzero, line 692); reply is the rm_packet performed for every captured
frame (line 725); sweep is rm_dead_packets in the tail loop (lines 894,
899); retrysend is the sendpacket immediately following a sweep that
reported a nonzero retry port (lines 897, 902), whose first action is
add_packet on that port. -/
inductive Reach : List Entry → Prop where
  | init : Reach []
  | fresh : ∀ (t : List Entry) (p w : Nat), Reach t → p ≠ 0 →
      get_packet t p = none → Reach (add_packet t p w)
  | reply : ∀ (t : List Entry) (p : Nat), Reach t → Reach (rm_packet t p)
  | sweep : ∀ (t : List Entry) (rtt now : Nat), Reach t →
      Reach (rm_dead_packets t rtt now).1
  | retrysend : ∀ (t : List Entry) (rtt now w : Nat), Reach t →
      (rm_dead_packets t rtt now).2 ≠ 0 →
      Reach (add_packet (rm_dead_packets t rtt now).1 (rm_dead_packets t rtt now).2 w)

/-- Invariant carried by every reachable table: retry counts stay at or
below the ceiling, no entry is registered for port 0, and destination ports
are pairwise distinct. -/
def InvT (l : List Entry) : Prop :=
  (∀ e ∈ l, e.retries ≤ NUM_RETRIES ∧ e.dport ≠ 0) ∧ (l.map Entry.dport).Nodup

/-! Helper lemmas. -/

theorem normloopF_of_lt (fuel s u : Nat) (h : u < 1000000) :
    normloopF fuel s u = (s, u) := by
  cases fuel with
  | zero => rfl
  | succ n => unfold normloopF; rw [if_neg (by omega)]

theorem normloop_of_lt (s u : Nat) (h : u < 1000000) : normloop s u = (s, u) :=
  normloopF_of_lt u s u h

theorem timeval_fst_le_two (v : Nat) : (timeval v).1 ≤ 2 := by
  unfold timeval
  by_cases h : 2 < (normloop (v % 2 ^ 32 / 2 ^ 28) (v % 2 ^ 32 % 2 ^ 28 * 16)).1
  · rw [if_pos h]
  · rw [if_neg h]; omega

/-! Claim C2: the per-iteration capture deadline. -/

/-- Claim C2, amended: sendpacket divides only the seconds part of the
decoded RTT by eight, folding its remainder into the microseconds as
milliseconds; the microseconds part of the decoded RTT is added unchanged.
Since the decoded seconds are clamped at 2, the computed seconds are always
0 and the 1-second clamp never fires: the deadline is 0 seconds and
u + 125000 * s microseconds where (s, u) is the decoded RTT.  It is not
RTT / 8. -/
theorem sendpacket_deadline_formula (r : Nat) :
    sendpacket_deadline r = (0, (timeval r).2 + (timeval r).1 * 125000) := by
  rcases h : timeval r with ⟨s, u⟩
  have hs : s ≤ 2 := by
    have h2 := timeval_fst_le_two r
    rw [h] at h2
    exact h2
  unfold sendpacket_deadline
  rw [h]
  have h1 : s * 1000 / 8 = s * 125 := by omega
  rw [h1, if_neg (by omega)]
  have h2 : s * 125 / 1000 = 0 := by omega
  have h3 : s * 125 % 1000 = s * 125 := by omega
  rw [h2, h3]
  simp only [Prod.mk.injEq]
  refine ⟨trivial, by omega⟩

/-- Claim C2, counterexample to the claim as stated: a decoded RTT of 100 ms
(encoded value 6250) yields a deadline of 100 ms, not RTT / 8 = 12.5 ms. -/
theorem sendpacket_deadline_100ms_cex :
    timeval 6250 = (0, 100000) ∧ sendpacket_deadline 6250 = (0, 100000)
      ∧ sendpacket_deadline 6250 ≠ (0, 12500) := by decide

/-! Claim C7: the sequence-number timestamp codec round trip. -/

/-- Claim C7, amended: encoding a wall-clock reading (S, U) with U < 1e6 and
decoding it yields (S mod 16, U rounded down to a multiple of 16) only when
S mod 16 is at most 2; otherwise the decoder's clamp returns (2, 0). -/
theorem codec_roundtrip (S U : Nat) (hU : U < 1000000) :
    timeval (maketime S U)
      = if S % 16 ≤ 2 then (S % 16, U / 16 * 16) else (2, 0) := by
  have hm : maketime S U = S % 16 * 2 ^ 28 + U / 16 := by unfold maketime; omega
  have hv : (S % 16 * 2 ^ 28 + U / 16) % 2 ^ 32 = S % 16 * 2 ^ 28 + U / 16 := by omega
  have hdiv : (S % 16 * 2 ^ 28 + U / 16) / 2 ^ 28 = S % 16 := by omega
  have hmod : (S % 16 * 2 ^ 28 + U / 16) % 2 ^ 28 = U / 16 := by omega
  have hl : U / 16 * 16 < 1000000 := by omega
  rw [hm]
  unfold timeval
  rw [hv, hdiv, hmod, normloop_of_lt _ _ hl]
  by_cases hc : S % 16 ≤ 2
  · rw [if_neg (by omega), if_pos hc]
  · rw [if_pos (by omega), if_neg hc]

/-- Claim C7, witness: the round trip at S = 2, U = 100 gives (2, 96). -/
theorem codec_roundtrip_witness :
    timeval (maketime 2 100) = if 2 % 16 ≤ 2 then (2 % 16, 100 / 16 * 16) else (2, 0) :=
  codec_roundtrip 2 100 (by norm_num)

/-- Claim C7, counterexample to the claim as stated: at S = 5, U = 0 the
decoder's clamp makes the round trip yield (2, 0), not (S mod 16, 0). -/
theorem codec_roundtrip_clamp_cex :
    timeval (maketime 5 0) = (2, 0) ∧ timeval (maketime 5 0) ≠ (5 % 16, 0 / 16 * 16) := by
  decide

/-! Claim C1: bounds on the mutable RTT estimate. -/

/-- Claim C1, amended: the initial estimate is in (0, 2^28], and every value
written by sendpacket's update stays at most 2^28, but the updated value is
strictly positive only when the decoded reply timestamp is strictly earlier
than now: a reply whose echoed time is at or after now drives the estimate
to 0. -/
theorem rtt_update_bounds :
    (0 < initial_rtt ∧ initial_rtt ≤ 2 ^ 28)
      ∧ ∀ now rack, sendpacket_rtt_update now rack ≤ 2 ^ 28
          ∧ (rack % 2 ^ 32 < now % 2 ^ 32 → 0 < sendpacket_rtt_update now rack) := by
  refine ⟨⟨by norm_num [initial_rtt], le_refl _⟩, fun now rack => ⟨?_, ?_⟩⟩
  · unfold sendpacket_rtt_update compute_rtt
    split_ifs <;> omega
  · intro h
    unfold sendpacket_rtt_update compute_rtt
    split_ifs <;> omega

/-- Claim C1, witness: the update at now = 10, rack = 3 is 7, in (0, 2^28]. -/
theorem rtt_update_bounds_witness :
    sendpacket_rtt_update 10 3 ≤ 2 ^ 28 ∧ 0 < sendpacket_rtt_update 10 3 :=
  ⟨(rtt_update_bounds.2 10 3).1, (rtt_update_bounds.2 10 3).2 (by decide)⟩

/-- Claim C1, counterexample to the claim as stated: a reply whose decoded
timestamp equals now makes the update write 0, so the estimate does not stay
strictly positive. -/
theorem rtt_update_zero_cex :
    sendpacket_rtt_update 5 5 = 0 ∧ ¬ 0 < sendpacket_rtt_update 5 5 := by decide

/-! Helper lemmas about the in-flight table. -/

theorem get_packet_eq_none_iff (l : List Entry) (p : Nat) :
    get_packet l p = none ↔ ∀ e ∈ l, e.dport ≠ p := by
  induction l with
  | nil => simp [get_packet]
  | cons a t ih =>
      by_cases h : a.dport = p
      · simp [get_packet, h]
      · simp [get_packet, h, ih]

theorem get_packet_eq_some (l : List Entry) (p : Nat) (e : Entry)
    (h : get_packet l p = some e) : e ∈ l ∧ e.dport = p := by
  induction l with
  | nil => simp [get_packet] at h
  | cons a t ih =>
      by_cases hA : a.dport = p
      · rw [get_packet, if_pos hA] at h
        obtain rfl : a = e := by injection h
        exact ⟨by simp, hA⟩
      · rw [get_packet, if_neg hA] at h
        obtain ⟨h1, h2⟩ := ih h
        exact ⟨by simp [h1], h2⟩

theorem get_packet_mem_isSome (l : List Entry) (p : Nat) (e : Entry)
    (he : e ∈ l) (hd : e.dport = p) : (get_packet l p).isSome := by
  induction l with
  | nil => cases he
  | cons a t ih =>
      by_cases hA : a.dport = p
      · simp [get_packet, hA]
      · rcases List.mem_cons.mp he with h | h
        · subst h; exact absurd hd hA
        · simpa [get_packet, hA] using ih h

theorem get_packet_decomp (l : List Entry) (p : Nat) (e : Entry)
    (h : get_packet l p = some e) :
    ∃ l1 l2, l = l1 ++ e :: l2 ∧ (∀ x ∈ l1, x.dport ≠ p) ∧ e.dport = p := by
  induction l with
  | nil => simp [get_packet] at h
  | cons a t ih =>
      by_cases hA : a.dport = p
      · rw [get_packet, if_pos hA] at h
        obtain rfl : a = e := by injection h
        exact ⟨[], t, rfl, by simp, hA⟩
      · rw [get_packet, if_neg hA] at h
        obtain ⟨l1, l2, h1, h2, h3⟩ := ih h
        refine ⟨a :: l1, l2, by simp [h1], ?_, h3⟩
        intro x hx
        rcases List.mem_cons.mp hx with hx | hx
        · subst hx; exact hA
        · exact h2 x hx

theorem upd_first_decomp (l1 l2 : List Entry) (e : Entry) (p w : Nat)
    (h1 : ∀ x ∈ l1, x.dport ≠ p) (h2 : e.dport = p) :
    upd_first (l1 ++ e :: l2) p w = l1 ++ ⟨e.dport, w, e.retries + 1⟩ :: l2 := by
  induction l1 with
  | nil => simp [upd_first, h2]
  | cons a t ih =>
      have ha : a.dport ≠ p := h1 a (by simp)
      simp only [List.cons_append, upd_first, if_neg ha]
      rw [List.append_eq, ih (fun x hx => h1 x (by simp [hx]))]

theorem upd_first_map_dport (l : List Entry) (p w : Nat) :
    (upd_first l p w).map Entry.dport = l.map Entry.dport := by
  induction l with
  | nil => rfl
  | cons a t ih => by_cases h : a.dport = p <;> simp [upd_first, h, ih]

theorem mem_upd_first (l : List Entry) (p w : Nat) (x : Entry)
    (hx : x ∈ upd_first l p w) :
    x ∈ l ∨ ∃ e, e ∈ l ∧ e.dport = p ∧ x = ⟨e.dport, w, e.retries + 1⟩ := by
  induction l with
  | nil => simp [upd_first] at hx
  | cons a t ih =>
      by_cases h : a.dport = p
      · rw [upd_first, if_pos h] at hx
        rcases List.mem_cons.mp hx with hx | hx
        · right; exact ⟨a, by simp, h, hx⟩
        · left; simp [hx]
      · rw [upd_first, if_neg h] at hx
        rcases List.mem_cons.mp hx with hx | hx
        · left; simp [hx]
        · rcases ih hx with h1 | ⟨e, he, hd, hxe⟩
          · left; simp [h1]
          · right; exact ⟨e, by simp [he], hd, hxe⟩

theorem add_packet_of_absent (l : List Entry) (p w : Nat)
    (h : get_packet l p = none) : add_packet l p w = ⟨p, w, 0⟩ :: l := by
  unfold add_packet
  rw [h]

theorem add_packet_of_present (l : List Entry) (p w : Nat)
    (h : (get_packet l p).isSome) : add_packet l p w = upd_first l p w := by
  unfold add_packet
  rcases hg : get_packet l p with _ | e
  · rw [hg] at h; simp at h
  · rfl

theorem rm_packet_sublist (l : List Entry) (p : Nat) : (rm_packet l p).Sublist l := by
  induction l with
  | nil => simp [rm_packet]
  | cons a t ih =>
      by_cases h : a.dport = p
      · rw [rm_packet, if_pos h]
        exact (List.Sublist.refl t).cons a
      · rw [rm_packet, if_neg h]
        exact ih.cons₂ a

theorem rm_packet_of_absent (l : List Entry) (p : Nat)
    (h : ∀ e ∈ l, e.dport ≠ p) : rm_packet l p = l := by
  induction l with
  | nil => rfl
  | cons a t ih =>
      rw [rm_packet, if_neg (h a (by simp))]
      rw [ih (fun e he => h e (by simp [he]))]

theorem rm_dead_go_fst_sublist (rtt now : Nat) (l : List Entry) (r : Nat) :
    (rm_dead_go rtt now l r).1.Sublist l := by
  induction l generalizing r with
  | nil => simp [rm_dead_go]
  | cons e t ih =>
      cases hd : packetdead e.when rtt now with
      | false =>
          rw [rm_dead_go]
          simp only [hd, Bool.false_eq_true, if_false]
          exact (ih r).cons₂ e
      | true =>
          rw [rm_dead_go]
          simp only [hd, if_true]
          by_cases hr : e.retries < NUM_RETRIES
          · rw [if_pos hr]; exact (ih e.dport).cons₂ e
          · rw [if_neg hr]; exact (ih r).cons e

theorem rm_dead_go_spec (rtt now : Nat) (l : List Entry) (r : Nat) :
    rm_dead_go rtt now l r
      = (l.filter (fun e => ! deadAtCeiling rtt now e),
         l.foldl (fun acc e => if retryCandidate rtt now e = true then e.dport else acc) r) := by
  induction l generalizing r with
  | nil => simp [rm_dead_go]
  | cons e t ih =>
      cases hd : packetdead e.when rtt now with
      | false =>
          have hc1 : deadAtCeiling rtt now e = false := by
            simp [deadAtCeiling, hd]
          have hc2 : retryCandidate rtt now e = false := by
            simp [retryCandidate, hd]
          rw [rm_dead_go]
          simp only [hd, Bool.false_eq_true, if_false]
          rw [ih r]
          simp [hc1, hc2]
      | true =>
          by_cases hr : e.retries < NUM_RETRIES
          · have hc1 : deadAtCeiling rtt now e = false := by
              simp only [deadAtCeiling, hd, Bool.true_and]
              exact decide_eq_false (Nat.not_le.mpr hr)
            have hc2 : retryCandidate rtt now e = true := by
              simp only [retryCandidate, hd, Bool.true_and]
              exact decide_eq_true hr
            rw [rm_dead_go]
            simp only [hd, if_true, if_pos hr]
            rw [ih e.dport]
            simp [hc1, hc2]
          · have hc1 : deadAtCeiling rtt now e = true := by
              simp only [deadAtCeiling, hd, Bool.true_and]
              exact decide_eq_true (Nat.not_lt.mp hr)
            have hc2 : retryCandidate rtt now e = false := by
              simp only [retryCandidate, hd, Bool.true_and]
              exact decide_eq_false hr
            rw [rm_dead_go]
            simp only [hd, if_true, if_neg hr]
            rw [ih r]
            simp [hc1, hc2]

theorem rm_dead_go_retry_mem (rtt now : Nat) (l : List Entry) (r : Nat) :
    (rm_dead_go rtt now l r).2 = r
      ∨ ∃ e ∈ (rm_dead_go rtt now l r).1,
          e.dport = (rm_dead_go rtt now l r).2 ∧ e.retries < NUM_RETRIES := by
  induction l generalizing r with
  | nil => left; rfl
  | cons e t ih =>
      cases hd : packetdead e.when rtt now with
      | false =>
          rw [rm_dead_go]
          simp only [hd, Bool.false_eq_true, if_false]
          rcases ih r with h | ⟨x, hx, hx1, hx2⟩
          · left; exact h
          · right; exact ⟨x, by simp [hx], hx1, hx2⟩
      | true =>
          by_cases hr : e.retries < NUM_RETRIES
          · rw [rm_dead_go]
            simp only [hd, if_true, if_pos hr]
            rcases ih e.dport with h | ⟨x, hx, hx1, hx2⟩
            · right; exact ⟨e, by simp, h.symm, hr⟩
            · right; exact ⟨x, by simp [hx], hx1, hx2⟩
          · rw [rm_dead_go]
            simp only [hd, if_true, if_neg hr]
            exact ih r

theorem foldl_retry_of_none (rtt now : Nat) (l : List Entry) (acc : Nat)
    (h : ∀ e ∈ l, retryCandidate rtt now e = false) :
    l.foldl (fun a e => if retryCandidate rtt now e = true then e.dport else a) acc = acc := by
  induction l generalizing acc with
  | nil => rfl
  | cons e t ih =>
      have he := h e (by simp)
      rw [List.foldl_cons, if_neg (by simp [he])]
      exact ih acc (fun x hx => h x (by simp [hx]))

theorem nodup_dport_eq (l : List Entry) (hn : (l.map Entry.dport).Nodup)
    (e1 e2 : Entry) (h1 : e1 ∈ l) (h2 : e2 ∈ l) (hd : e1.dport = e2.dport) :
    e1 = e2 :=
  List.inj_on_of_nodup_map hn h1 h2 hd

theorem InvT_of_sublist (l1 l2 : List Entry) (hs : l1.Sublist l2) (h : InvT l2) :
    InvT l1 :=
  ⟨fun e he => h.1 e (hs.subset he), h.2.sublist (hs.map Entry.dport)⟩

theorem reach_inv (t : List Entry) (h : Reach t) : InvT t := by
  induction h with
  | init => exact ⟨by simp, by simp⟩
  | fresh t p w ht hp hnone ih =>
      rw [add_packet_of_absent t p w hnone]
      constructor
      · intro e he
        rcases List.mem_cons.mp he with he | he
        · subst he; exact ⟨Nat.zero_le _, hp⟩
        · exact ih.1 e he
      · rw [List.map_cons]
        refine List.Nodup.cons ?_ ih.2
        intro hmem
        rcases List.mem_map.mp hmem with ⟨e, he, hde⟩
        exact ((get_packet_eq_none_iff t p).mp hnone e he) hde
  | reply t p ht ih => exact InvT_of_sublist _ _ (rm_packet_sublist t p) ih
  | sweep t rtt now ht ih =>
      exact InvT_of_sublist _ _ (rm_dead_go_fst_sublist rtt now t 0) ih
  | retrysend t rtt now w ht hr ih =>
      have hsub : (rm_dead_packets t rtt now).1.Sublist t :=
        rm_dead_go_fst_sublist rtt now t 0
      have inv1 : InvT (rm_dead_packets t rtt now).1 := InvT_of_sublist _ _ hsub ih
      obtain ⟨e, he, hde, hre⟩ :
          ∃ e ∈ (rm_dead_packets t rtt now).1,
            e.dport = (rm_dead_packets t rtt now).2 ∧ e.retries < NUM_RETRIES := by
        rcases rm_dead_go_retry_mem rtt now t 0 with h0 | hex
        · exact absurd h0 hr
        · exact hex
      have hupd : add_packet (rm_dead_packets t rtt now).1 (rm_dead_packets t rtt now).2 w
          = upd_first (rm_dead_packets t rtt now).1 (rm_dead_packets t rtt now).2 w :=
        add_packet_of_present _ _ _ (get_packet_mem_isSome _ _ e he hde)
      rw [hupd]
      constructor
      · intro x hx
        rcases mem_upd_first _ _ _ x hx with hx1 | ⟨a, ha, hda, hxa⟩
        · exact inv1.1 x hx1
        · have hae : a = e := nodup_dport_eq _ inv1.2 a e ha he (by rw [hda, hde])
          subst hae
          subst hxa
          exact ⟨hre, by rw [hda]; exact hr⟩
      · rw [upd_first_map_dport]
        exact inv1.2

theorem reach_single : Reach [(⟨80, 0, 0⟩ : Entry)] := by
  have h := Reach.fresh [] 80 0 Reach.init (by norm_num) rfl
  rwa [add_packet_of_absent [] 80 0 rfl] at h

/-! Claim C5: the retry-count invariant of the in-flight table. -/

/-- Claim C5, amended: at every point in a run, every entry of the in-flight
table has retry count at most NUM_RETRIES = 2 (the count does reach exactly
2 after the second retransmission, so the count is not always strictly below
the ceiling). -/
theorem inflight_retry_ceiling (t : List Entry) (h : Reach t) :
    ∀ e ∈ t, e.retries ≤ NUM_RETRIES :=
  fun e he => ((reach_inv t h).1 e he).1

/-- Claim C5, witness: the singleton table reached by one fresh probe to
port 80 satisfies the bound. -/
theorem inflight_retry_ceiling_witness :
    Reach [(⟨80, 0, 0⟩ : Entry)] ∧ (⟨80, 0, 0⟩ : Entry).retries ≤ NUM_RETRIES :=
  ⟨reach_single, inflight_retry_ceiling _ reach_single ⟨80, 0, 0⟩ (by simp)⟩

/-- Claim C5, counterexample to the claim as stated: after two sweeps that
each report port 80 for retry and the two retransmissions that follow, the
reachable table holds an entry with retry count exactly 2, so the count is
not always below the ceiling of two retransmissions. -/
theorem inflight_retry_two_cex :
    Reach [(⟨80, 2 ^ 30, 2⟩ : Entry)]
      ∧ (⟨80, 2 ^ 30, 2⟩ : Entry).retries = NUM_RETRIES := by
  constructor
  · have h1 : Reach [(⟨80, 0, 0⟩ : Entry)] := reach_single
    have h2 := Reach.retrysend [⟨80, 0, 0⟩] 0 (2 ^ 29) (2 ^ 29) h1 (by decide)
    have e2 : add_packet (rm_dead_packets [(⟨80, 0, 0⟩ : Entry)] 0 (2 ^ 29)).1
        (rm_dead_packets [(⟨80, 0, 0⟩ : Entry)] 0 (2 ^ 29)).2 (2 ^ 29)
        = [(⟨80, 2 ^ 29, 1⟩ : Entry)] := by decide
    rw [e2] at h2
    have h3 := Reach.retrysend [⟨80, 2 ^ 29, 1⟩] 0 (2 ^ 30) (2 ^ 30) h2 (by decide)
    have e3 : add_packet (rm_dead_packets [(⟨80, 2 ^ 29, 1⟩ : Entry)] 0 (2 ^ 30)).1
        (rm_dead_packets [(⟨80, 2 ^ 29, 1⟩ : Entry)] 0 (2 ^ 30)).2 (2 ^ 30)
        = [(⟨80, 2 ^ 30, 2⟩ : Entry)] := by decide
    rw [e3] at h3
    exact h3
  · rfl

/-! Claim C6: characterization of the sweep. -/

/-- Claim C6, amended: for every table and RTT, rm_dead_packets removes
exactly the entries that are dead and whose retry count is at or above the
ceiling NUM_RETRIES = 2 (not only those exactly at the ceiling), returns as
retry the port of the last traversed dead entry with retry count below the
ceiling (or 0 when there is none), and when no entry is dead it returns the
table unchanged with retry = 0. -/
theorem rm_dead_packets_spec (l : List Entry) (rtt now : Nat) :
    rm_dead_packets l rtt now
        = (l.filter (fun e => ! deadAtCeiling rtt now e),
           l.foldl (fun acc e => if retryCandidate rtt now e = true then e.dport else acc) 0)
      ∧ ((∀ e ∈ l, packetdead e.when rtt now = false) →
          rm_dead_packets l rtt now = (l, 0)) := by
  constructor
  · exact rm_dead_go_spec rtt now l 0
  · intro hall
    unfold rm_dead_packets
    rw [rm_dead_go_spec rtt now l 0]
    have h1 : l.filter (fun e => ! deadAtCeiling rtt now e) = l := by
      rw [List.filter_eq_self]
      intro e he
      simp [deadAtCeiling, hall e he]
    have h2 : l.foldl (fun acc e => if retryCandidate rtt now e = true then e.dport else acc) 0 = 0 :=
      foldl_retry_of_none rtt now l 0 (fun e he => by simp [retryCandidate, hall e he])
    rw [h1, h2]

/-- Claim C6, witness: on a table with one live entry the sweep returns the
table unchanged with retry = 0. -/
theorem rm_dead_packets_spec_witness :
    rm_dead_packets [(⟨80, 0, 0⟩ : Entry)] 0 5 = ([(⟨80, 0, 0⟩ : Entry)], 0) :=
  (rm_dead_packets_spec [⟨80, 0, 0⟩] 0 5).2 (by decide)

/-- Claim C6, counterexample to the claim as stated: a dead entry with retry
count 5, strictly above the ceiling and hence not "at the ceiling
NUM_RETRIES = 2", is removed all the same. -/
theorem rm_dead_above_ceiling_cex :
    rm_dead_packets [(⟨7, 0, 5⟩ : Entry)] 0 (2 ^ 29) = ([], 0)
      ∧ (⟨7, 0, 5⟩ : Entry).retries ≠ NUM_RETRIES := by decide

/-! Claim C9: malformed capture frames. -/

/-- Claim C9, confirmed: on a frame whose TCP header would extend past the
captured length, extractsport returns 0 and issynack returns false (so no
port is reported open and no RST is sent), and since every reachable
in-flight table registers only nonzero destination ports, the subsequent
rm_packet with port 0 leaves the table unchanged. -/
theorem malformed_frame_ignored (f : Frame) (hf : f.caplen < f.ihl * 4 + 20) :
    extractsport f = 0 ∧ issynack f = false
      ∧ ∀ t, Reach t → rm_packet t (extractsport f) = t := by
  have ht : extracttcp f = none := by unfold extracttcp; rw [if_pos hf]
  have h0 : extractsport f = 0 := by unfold extractsport; rw [ht]
  refine ⟨h0, by unfold issynack; rw [ht], ?_⟩
  intro t hr
  rw [h0]
  exact rm_packet_of_absent t 0 (fun e he => ((reach_inv t hr).1 e he).2)

/-- Claim C9, witness: a frame with ihl = 5 truncated to 10 captured bytes
is ignored, and rm_packet with its extracted port 0 leaves a reachable
table untouched. -/
theorem malformed_frame_ignored_witness :
    extractsport ⟨5, 10, ⟨22, 7, 18⟩⟩ = 0
      ∧ issynack ⟨5, 10, ⟨22, 7, 18⟩⟩ = false
      ∧ rm_packet [(⟨80, 0, 0⟩ : Entry)] (extractsport ⟨5, 10, ⟨22, 7, 18⟩⟩)
          = [(⟨80, 0, 0⟩ : Entry)] :=
  ⟨(malformed_frame_ignored ⟨5, 10, ⟨22, 7, 18⟩⟩ (by norm_num)).1,
   (malformed_frame_ignored ⟨5, 10, ⟨22, 7, 18⟩⟩ (by norm_num)).2.1,
   (malformed_frame_ignored ⟨5, 10, ⟨22, 7, 18⟩⟩ (by norm_num)).2.2
     [(⟨80, 0, 0⟩ : Entry)] reach_single⟩

/-! Claim C10: the algebra of add_packet. -/

/-- Claim C10, amended: when the table has no entry for p, adding p twice
yields exactly one entry for p, with retry count 1 and the second timestamp;
in general add_packet increments the retry count and overwrites the
timestamp of the first entry for an already-present port, and prepends a
fresh entry with retry count 0 for an absent one.  For a table that already
holds p the double add does not give retry count 1, so the hypothesis is
necessary. -/
theorem add_packet_laws :
    (∀ (t : List Entry) (p w : Nat), get_packet t p = none →
        add_packet t p w = ⟨p, w, 0⟩ :: t)
  ∧ (∀ (t : List Entry) (p w : Nat) (e : Entry), get_packet t p = some e →
        ∃ l1 l2, t = l1 ++ e :: l2 ∧ (∀ x ∈ l1, x.dport ≠ p) ∧ e.dport = p
          ∧ add_packet t p w = l1 ++ ⟨e.dport, w, e.retries + 1⟩ :: l2)
  ∧ (∀ (t : List Entry) (p w1 w2 : Nat), p ≠ 0 → get_packet t p = none →
        add_packet (add_packet t p w1) p w2 = ⟨p, w2, 1⟩ :: t
          ∧ (add_packet (add_packet t p w1) p w2).filter (fun e => e.dport == p)
              = [⟨p, w2, 1⟩]) := by
  refine ⟨add_packet_of_absent, ?_, ?_⟩
  · intro t p w e h
    obtain ⟨l1, l2, h1, h2, h3⟩ := get_packet_decomp t p e h
    refine ⟨l1, l2, h1, h2, h3, ?_⟩
    rw [add_packet_of_present t p w (by rw [h]; rfl), h1,
      upd_first_decomp l1 l2 e p w h2 h3]
  · intro t p w1 w2 hp hnone
    have h1 : add_packet t p w1 = ⟨p, w1, 0⟩ :: t := add_packet_of_absent t p w1 hnone
    have h2 : get_packet (⟨p, w1, 0⟩ :: t) p = some ⟨p, w1, 0⟩ := by
      rw [get_packet, if_pos rfl]
    have h3 : add_packet (⟨p, w1, 0⟩ :: t) p w2 = ⟨p, w2, 1⟩ :: t := by
      rw [add_packet_of_present _ p w2 (by rw [h2]; rfl), upd_first, if_pos rfl]
    constructor
    · rw [h1, h3]
    · rw [h1, h3, List.filter_cons]
      have hkeep : ((⟨p, w2, 1⟩ : Entry).dport == p) = true := by simp
      rw [if_pos hkeep]
      have hrest : t.filter (fun e => e.dport == p) = [] := by
        rw [List.filter_eq_nil_iff]
        intro e he
        have := (get_packet_eq_none_iff t p).mp hnone e he
        simp [this]
      rw [hrest]

/-- Claim C10, witness: the double add on the empty table for port 80 yields
the single entry with retry count 1 and the second timestamp. -/
theorem add_packet_laws_witness :
    add_packet (add_packet [] 80 1) 80 2 = [(⟨80, 2, 1⟩ : Entry)] :=
  (add_packet_laws.2.2 [] 80 1 2 (by norm_num) rfl).1

/-- Claim C10, counterexample to the claim as stated: on a table that
already holds port 80 with retry count 1, the double add leaves a single
entry with retry count 3, not 1, so the law does not hold for every table. -/
theorem add_packet_existing_cex :
    add_packet (add_packet [(⟨80, 0, 1⟩ : Entry)] 80 5) 80 9 = [(⟨80, 9, 3⟩ : Entry)]
      ∧ (⟨80, 9, 3⟩ : Entry).retries ≠ 1 := by decide

/-! Claim C3: behavior of the engine on a sendto failure. -/

theorem scan_loop_attempts (ports : List Nat) (oracle : Nat → Bool) (k : Nat)
    (t : List Entry) :
    (scan_loop ports oracle k t).1 = k + (ports.filter (fun p => p ≠ 0)).length := by
  induction ports generalizing k t with
  | nil => simp [scan_loop]
  | cons p rest ih =>
      by_cases hp : p = 0
      · rw [scan_loop, if_pos hp]
        rw [ih k t]
        simp [List.filter_cons, hp]
      · rw [scan_loop, if_neg hp]
        have hcount : ((p :: rest).filter (fun q => q ≠ 0)).length
            = (rest.filter (fun q => q ≠ 0)).length + 1 := by
          simp [List.filter_cons, hp]
        cases ho : oracle k with
        | false =>
            rw [show sendpacket_send t p k false = none from by
              unfold sendpacket_send; rw [if_neg hp, if_neg (by simp)]]
            rw [ih (k + 1) [], hcount]
            omega
        | true =>
            rw [show sendpacket_send t p k true = some (add_packet t p k) from by
              unfold sendpacket_send; rw [if_neg hp, if_pos rfl]]
            rw [ih (k + 1) (add_packet t p k), hcount]
            omega

/-- Claim C3, amended: on a sendto failure the sending routine does close
the raw socket and the capture filter and return NULL, but the scan engine
does not treat that as fatal: the NULL is stored as the (empty) in-flight
table, the port loop keeps running and a transmission is attempted for
every remaining nonzero port (on the already-closed socket), so the number
of sendto attempts always equals the number of nonzero ports regardless of
failures. -/
theorem send_failure_behavior :
    (∀ (t : List Entry) (p w : Nat), p ≠ 0 → sendpacket_send t p w false = none)
  ∧ (∀ (ports : List Nat) (oracle : Nat → Bool),
        (scan_loop ports oracle 0 []).1 = (ports.filter (fun p => p ≠ 0)).length) := by
  constructor
  · intro t p w hp
    unfold sendpacket_send
    rw [if_neg hp, if_neg (by simp)]
  · intro ports oracle
    have h := scan_loop_attempts ports oracle 0 []
    omega

/-- Claim C3, witness: the sending routine returns NULL on a failed send to
port 22, and in an all-failing run over three ports all three sends are
still attempted. -/
theorem send_failure_behavior_witness :
    sendpacket_send [] 22 0 false = none
      ∧ (scan_loop [22, 80, 443] (fun _ => false) 0 []).1
          = ([22, 80, 443].filter (fun p => p ≠ 0)).length :=
  ⟨send_failure_behavior.1 [] 22 0 (by norm_num),
   send_failure_behavior.2 [22, 80, 443] (fun _ => false)⟩

/-- Claim C3, counterexample to the claim as stated: with the very first
sendto failing, the engine still performs two further probe transmissions
(three attempts in total), so it does not abort the scan after the
failure. -/
theorem send_failure_continues_cex :
    sendpacket_send [] 22 0 false = none
      ∧ (scan_loop [22, 80, 443] (fun _ => false) 0 []).1 = 3
      ∧ (scan_loop [22, 80, 443] (fun _ => false) 0 []).1 ≠ 1 := by
  refine ⟨by decide, by decide, by decide⟩

/-! Claim C4: the return value of scan. -/

/-- Claim C4, amended: scan returns -1 exactly when opening the raw send
socket fails; the result of opening the receive filter is never tested, so
a filter-open failure does not produce -1, and whenever the socket opened
the scan runs to completion and returns 0 regardless of what was found. -/
theorem scan_return_code :
    ∀ (soc bpf : Int) (ports : List Nat) (oracle : Nat → Bool),
      ((scan_run soc bpf ports oracle).1 = -1 ↔ soc < 0)
        ∧ (0 ≤ soc → (scan_run soc bpf ports oracle).1 = 0) := by
  intro soc bpf ports oracle
  unfold scan_run
  by_cases h : soc < 0
  · rw [if_pos h]
    exact ⟨⟨fun _ => h, fun _ => rfl⟩, fun hc => absurd h (by omega)⟩
  · rw [if_neg h]
    refine ⟨⟨fun hc => absurd hc (by norm_num), fun hc => absurd hc h⟩, fun _ => rfl⟩

/-- Claim C4, witness: a failed socket open returns -1 and a successful one
returns 0. -/
theorem scan_return_code_witness :
    (scan_run (-2) 0 [] (fun _ => true)).1 = -1
      ∧ (scan_run 3 7 [] (fun _ => true)).1 = 0 :=
  ⟨(scan_return_code (-2) 0 [] (fun _ => true)).1.mpr (by norm_num),
   (scan_return_code 3 7 [] (fun _ => true)).2 (by norm_num)⟩

/-- Claim C4, counterexample to the claim as stated: with the socket open
succeeding and the receive filter open failing (bpf = -1), scan returns 0,
not -1, because the bpf result is never checked. -/
theorem scan_filter_fail_cex :
    (scan_run 3 (-1) [22] (fun _ => true)).1 = 0
      ∧ (scan_run 3 (-1) [22] (fun _ => true)).1 ≠ -1 := by
  refine ⟨by decide, by decide⟩

/-! Claim C8: the measurement loop of find_rtt. -/

/-- Claim C8, amended: the measurement loop aborts with the saturation RTT
exactly when the cumulative count of non-replies (never reset by a
successful round) passes ten before the tenth successful round — the
eleventh cumulative non-reply aborts, not ten successive non-replies; on
normal completion the returned estimate is the final max, or the saturation
value when max is still zero. -/
theorem find_rtt_loop_spec :
    ∀ (outs : List (Option Nat)) (j err maxv maxmax : Nat) (r : FindRttResult),
      find_rtt_go outs j err maxv maxmax = some r →
        r.aborted = abortsB outs j err
          ∧ (r.aborted = true → r.rtt = 2 ^ 28)
          ∧ (r.aborted = false → r.rtt = if r.maxv = 0 then 2 ^ 28 else r.maxv) := by
  intro outs
  induction outs with
  | nil =>
      intro j err maxv maxmax r h
      rw [find_rtt_go] at h
      by_cases hj : 10 ≤ j
      · rw [if_pos hj] at h
        obtain rfl : (⟨false, if maxv = 0 then 2 ^ 28 else maxv, maxv⟩ : FindRttResult) = r := by
          injection h
        refine ⟨?_, ?_, ?_⟩
        · rw [abortsB]
        · intro hc; exact absurd hc (by simp)
        · intro _; rfl
      · rw [if_neg hj] at h
        cases h
  | cons o rest ih =>
      intro j err maxv maxmax r h
      cases o with
      | none =>
          rw [find_rtt_go] at h
          by_cases hj : 10 ≤ j
          · rw [if_pos hj] at h
            obtain rfl : (⟨false, if maxv = 0 then 2 ^ 28 else maxv, maxv⟩ : FindRttResult) = r := by
              injection h
            refine ⟨?_, ?_, ?_⟩
            · rw [abortsB, if_pos hj]
            · intro hc; exact absurd hc (by simp)
            · intro _; rfl
          · rw [if_neg hj] at h
            by_cases he : 10 < err + 1
            · rw [if_pos he] at h
              obtain rfl : (⟨true, 2 ^ 28, maxv⟩ : FindRttResult) = r := by injection h
              refine ⟨?_, ?_, ?_⟩
              · rw [abortsB, if_neg hj, if_pos he]
              · intro _; rfl
              · intro hc; exact absurd hc (by simp)
            · rw [if_neg he] at h
              have hres := ih j (err + 1) maxv maxmax r h
              refine ⟨?_, hres.2.1, hres.2.2⟩
              rw [abortsB, if_neg hj, if_neg he]
              exact hres.1
      | some val =>
          rw [find_rtt_go] at h
          by_cases hj : 10 ≤ j
          · rw [if_pos hj] at h
            obtain rfl : (⟨false, if maxv = 0 then 2 ^ 28 else maxv, maxv⟩ : FindRttResult) = r := by
              injection h
            refine ⟨?_, ?_, ?_⟩
            · rw [abortsB, if_pos hj]
            · intro hc; exact absurd hc (by simp)
            · intro _; rfl
          · rw [if_neg hj] at h
            have hres := ih (j + 1) err (rttSample val maxv maxmax).1
              (rttSample val maxv maxmax).2 r h
            refine ⟨?_, hres.2.1, hres.2.2⟩
            rw [abortsB, if_neg hj]
            exact hres.1

/-- Claim C8, witness: ten successful rounds with sample 5 complete the loop
without aborting; since max is still 0 the saturation value is returned. -/
theorem find_rtt_loop_spec_witness :
    find_rtt_run (List.replicate 10 (Option.some 5))
        = some ⟨false, 2 ^ 28, 0⟩
      ∧ FindRttResult.aborted ⟨false, 2 ^ 28, 0⟩
          = abortsB (List.replicate 10 (Option.some 5)) 0 0 :=
  ⟨by decide,
   (find_rtt_loop_spec (List.replicate 10 (Option.some 5)) 0 0 0 0
      ⟨false, 2 ^ 28, 0⟩ (by decide)).1⟩

/-- Claim C8, counterexample to the claim as stated: a run that begins with
exactly ten successive non-replies does not abort; the loop continues,
accepts the later samples 5 and 7, and returns max = 5, not the saturation
RTT. -/
theorem find_rtt_ten_nonreplies_cex :
    find_rtt_run (List.replicate 10 Option.none
        ++ Option.some 5 :: Option.some 7 :: List.replicate 8 (Option.some 7))
      = some ⟨false, 5, 5⟩
      ∧ (5 : Nat) ≠ 2 ^ 28 := by decide

end SynScan
